import Mathlib

/-!
Verification development for the `best_trade_logs` trade-journal application.

The trade domain (`internal/domain/trade/trade.go`), the trade service
(`internal/service/trade`) and the in-memory repository
(`internal/storage/memory.go`) are shallowly embedded below.  Go `float64`
numeric fields are modelled as rationals (`ℚ`): every claim under study is an
algebraic identity about the computation structure, not about rounding.
`time.Time` values are modelled as natural-number instants (`Nat`), with the
Go zero time as `0`.  Go strings used as tags are modelled as `List Char`,
and `strings.TrimSpace` / `strings.ToLower` over their ASCII/Latin-1 range.
-/

/-- `Direction` is a Go string type; the two declared constants. -/
def directionLong : String := "LONG"

/-- The `SHORT` direction constant. -/
def directionShort : String := "SHORT"

/-- `EntryDetail` from `trade.go` (text fields and the date are irrelevant to
the claims and omitted; nullable `*float64` fields become `Option ℚ`). -/
structure EntryDetail where
  price : ℚ
  quantity : ℚ
  fees : ℚ
  stopLoss : Option ℚ
  target : Option ℚ
  riskPerShare : Option ℚ
  deriving DecidableEq, Repr

/-- `ExitDetail` from `trade.go` (date/reason/notes omitted). -/
structure ExitDetail where
  price : ℚ
  quantity : ℚ
  fees : ℚ
  deriving DecidableEq, Repr

/-- `FollowUp` from `trade.go` (notes omitted; `LoggedAt` as an instant). -/
structure FollowUp where
  daysAfter : Int
  price : ℚ
  loggedAt : Nat
  deriving DecidableEq, Repr

/-- `TradeReview` from `trade.go`; only the tag list matters to the claims. -/
structure TradeReview where
  tags : List (List Char)
  deriving DecidableEq, Repr

/-- The `Trade` aggregate root from `trade.go` (descriptive text fields that
no claim touches are omitted; `Direction` is a string as in Go). -/
structure Trade where
  id : String
  instrument : String
  direction : String
  entry : EntryDetail
  exit : Option ExitDetail
  followUps : List FollowUp
  review : TradeReview
  createdAt : Nat
  updatedAt : Nat
  deriving DecidableEq, Repr

/-- `Trade.GrossExposure`: `math.Abs(entry.Price * entry.Quantity)`. -/
def Trade.grossExposure (t : Trade) : ℚ :=
  |t.entry.price * t.entry.quantity|

/-- `Trade.RiskPerShare`: explicit override first, else stop-loss derived,
else zero — exactly the branch structure of the Go function. -/
def Trade.riskPerShare (t : Trade) : ℚ :=
  match t.entry.riskPerShare with
  | some r => r
  | none =>
    match t.entry.stopLoss with
    | none => 0
    | some stop =>
      if t.direction = directionLong then t.entry.price - stop
      else stop - t.entry.price

/-- `Trade.TotalRiskAmount`: `RiskPerShare() * entry.Quantity`. -/
def Trade.totalRiskAmount (t : Trade) : ℚ :=
  t.riskPerShare * t.entry.quantity

/-- `Trade.HasExited`: `exit != nil`. -/
def Trade.hasExited (t : Trade) : Bool :=
  t.exit.isSome

/-- `Trade.GrossResult`: 0 when open; otherwise the LONG pnl, overridden by
the SHORT pnl when the direction is `SHORT` — mirroring the Go code, which
computes the LONG formula first and replaces it only on `DirectionShort`. -/
def Trade.grossResult (t : Trade) : ℚ :=
  match t.exit with
  | none => 0
  | some e =>
    let pnl := (e.price - t.entry.price) * t.entry.quantity
    if t.direction = directionShort then (t.entry.price - e.price) * t.entry.quantity
    else pnl

/-- `Trade.NetResult`: `-entry.Fees` when open, else gross minus both fees. -/
def Trade.netResult (t : Trade) : ℚ :=
  match t.exit with
  | none => -t.entry.fees
  | some e => t.grossResult - t.entry.fees - e.fees

/-- `Trade.ResultPercent`: zero-guarded percentage of exposure. -/
def Trade.resultPercent (t : Trade) : ℚ :=
  let exposure := t.grossExposure
  if exposure = 0 then 0
  else (t.netResult / exposure) * 100

/-- `Trade.RMultiple`: zero-guarded quotient by the total risk. -/
def Trade.rMultiple (t : Trade) : ℚ :=
  let risk := t.totalRiskAmount
  if risk = 0 then 0
  else t.netResult / risk

/-- The `for _, f := range t.FollowUps` loop body of
`Trade.FollowUpChangePercent`, as a recursion over the slice. -/
def fucpLoop (dir : String) (e : ExitDetail) : List FollowUp → Int → ℚ × Bool
  | [], _ => (0, false)
  | f :: rest, d =>
    if f.daysAfter = d then
      if e.price = 0 then (0, true)
      else
        let change := ((f.price - e.price) / e.price) * 100
        if dir = directionShort then (((e.price - f.price) / e.price) * 100, true)
        else (change, true)
    else fucpLoop dir e rest d

/-- `Trade.FollowUpChangePercent`: `(0,false)` when open, else the loop. -/
def Trade.followUpChangePercent (t : Trade) (daysAfter : Int) : ℚ × Bool :=
  match t.exit with
  | none => (0, false)
  | some e => fucpLoop t.direction e t.followUps daysAfter

/-- `Trade.UnrealizedResult`: the net result once exited, else the mark-to-
market pnl at `closePrice` minus entry fees. -/
def Trade.unrealizedResult (t : Trade) (closePrice : ℚ) : ℚ :=
  if t.hasExited then t.netResult
  else
    let pnl := (closePrice - t.entry.price) * t.entry.quantity
    (if t.direction = directionShort then (t.entry.price - closePrice) * t.entry.quantity
     else pnl) - t.entry.fees

/-- `Trade.UnrealizedPercent`: zero-guarded percentage of exposure. -/
def Trade.unrealizedPercent (t : Trade) (closePrice : ℚ) : ℚ :=
  let exposure := t.grossExposure
  if exposure = 0 then 0
  else (t.unrealizedResult closePrice / exposure) * 100

/-- `Trade.EffectiveRewardTarget`: projected pnl to target over total risk,
with the zero-target and zero-risk guards of the Go code. -/
def Trade.effectiveRewardTarget (t : Trade) : ℚ :=
  match t.entry.target with
  | none => 0
  | some target =>
    let pnl := (target - t.entry.price) * t.entry.quantity
    let pnl := if t.direction = directionShort then (t.entry.price - target) * t.entry.quantity
               else pnl
    let risk := t.totalRiskAmount
    if risk = 0 then 0
    else pnl / risk

theorem long_ne_short : directionLong ≠ directionShort := by decide

/-- C1. For every trade with no exit, `NetResult = -entry.fees` and
`GrossResult = 0`; with an exit, `NetResult = GrossResult - entry.fees -
exit.fees`, where `GrossResult` is `(exit.price - entry.price) * entry.quantity`
for a LONG trade and `(entry.price - exit.price) * entry.quantity` for SHORT. -/
theorem netResult_grossResult_characterization (t : Trade) :
    (t.exit = none → t.netResult = -t.entry.fees ∧ t.grossResult = 0) ∧
    (∀ e, t.exit = some e →
      t.netResult = t.grossResult - t.entry.fees - e.fees ∧
      (t.direction = directionLong →
        t.grossResult = (e.price - t.entry.price) * t.entry.quantity) ∧
      (t.direction = directionShort →
        t.grossResult = (t.entry.price - e.price) * t.entry.quantity)) := by
  refine ⟨fun h => ?_, fun e h => ?_⟩
  · simp [Trade.netResult, Trade.grossResult, h]
  · refine ⟨by simp [Trade.netResult, h], fun hd => ?_, fun hd => ?_⟩
    · simp only [Trade.grossResult, h, hd]
      rw [if_neg long_ne_short]
    · simp only [Trade.grossResult, h, hd]
      simp

/-- Concrete instantiation of the C1 theorem (the spec's first scenario:
LONG, entry 100 x 10, fee 1, exit 120, fee 2). -/
theorem netResult_grossResult_characterization_witness :
    (Trade.mk "" "" directionLong ⟨100, 10, 1, none, none, none⟩
        (some ⟨120, 10, 2⟩) [] ⟨[]⟩ 0 0).grossResult = 200 ∧
    (Trade.mk "" "" directionLong ⟨100, 10, 1, none, none, none⟩
        (some ⟨120, 10, 2⟩) [] ⟨[]⟩ 0 0).netResult = 197 := by
  have h := netResult_grossResult_characterization
    (Trade.mk "" "" directionLong ⟨100, 10, 1, none, none, none⟩
      (some ⟨120, 10, 2⟩) [] ⟨[]⟩ 0 0)
  have hg := (h.2 ⟨120, 10, 2⟩ rfl).2.1 rfl
  have hn := (h.2 ⟨120, 10, 2⟩ rfl).1
  rw [hn, hg]
  norm_num

/-- C2. `RiskPerShare` returns the explicit override when set; otherwise the
stop-loss-derived value (`entry.price - stop` for LONG, `stop - entry.price`
for SHORT); otherwise 0. -/
theorem riskPerShare_characterization (t : Trade) :
    (∀ r, t.entry.riskPerShare = some r → t.riskPerShare = r) ∧
    (t.entry.riskPerShare = none → ∀ s, t.entry.stopLoss = some s →
      (t.direction = directionLong → t.riskPerShare = t.entry.price - s) ∧
      (t.direction = directionShort → t.riskPerShare = s - t.entry.price)) ∧
    (t.entry.riskPerShare = none → t.entry.stopLoss = none →
      t.riskPerShare = 0) := by
  refine ⟨fun r hr => ?_, fun ho s hs => ⟨fun hd => ?_, fun hd => ?_⟩,
    fun ho hs => ?_⟩
  · simp [Trade.riskPerShare, hr]
  · simp only [Trade.riskPerShare, ho, hs, hd]
    simp
  · simp only [Trade.riskPerShare, ho, hs, hd]
    rw [if_neg (Ne.symm long_ne_short)]
  · simp [Trade.riskPerShare, ho, hs]

/-- Concrete instantiation of the C2 theorem: override 7 wins over stop 95;
without the override the LONG stop-derived risk is 5. -/
theorem riskPerShare_characterization_witness :
    (Trade.mk "" "" directionLong ⟨100, 10, 1, some 95, none, some 7⟩
        none [] ⟨[]⟩ 0 0).riskPerShare = 7 ∧
    (Trade.mk "" "" directionLong ⟨100, 10, 1, some 95, none, none⟩
        none [] ⟨[]⟩ 0 0).riskPerShare = 5 := by
  constructor
  · exact (riskPerShare_characterization
      (Trade.mk "" "" directionLong ⟨100, 10, 1, some 95, none, some 7⟩
        none [] ⟨[]⟩ 0 0)).1 7 rfl
  · have h := ((riskPerShare_characterization
      (Trade.mk "" "" directionLong ⟨100, 10, 1, some 95, none, none⟩
        none [] ⟨[]⟩ 0 0)).2.1 rfl 95 rfl).1 rfl
    rw [h]
    norm_num

/-- C4. The zero-guards: `ResultPercent` and `UnrealizedPercent` are 0 on zero
exposure, `RMultiple` is 0 on zero total risk and is `NetResult /
TotalRiskAmount` when the risk is nonzero. -/
theorem metrics_zero_guards (t : Trade) (closePrice : ℚ) :
    (t.grossExposure = 0 →
      t.resultPercent = 0 ∧ t.unrealizedPercent closePrice = 0) ∧
    (t.totalRiskAmount = 0 → t.rMultiple = 0) ∧
    (t.totalRiskAmount ≠ 0 →
      t.rMultiple = t.netResult / t.totalRiskAmount) := by
  refine ⟨fun he => ⟨?_, ?_⟩, fun hr => ?_, fun hr => ?_⟩
  · simp [Trade.resultPercent, he]
  · simp [Trade.unrealizedPercent, he]
  · simp [Trade.rMultiple, hr]
  · simp [Trade.rMultiple, hr]

/-- Concrete instantiation of the C4 theorem: a degenerate trade with zero
price and no risk data hits every zero-guard; the spec's stop-loss scenario
(risk 50, net 149) exercises the nonzero branch. -/
theorem metrics_zero_guards_witness :
    (Trade.mk "" "" directionLong ⟨0, 0, 3, none, none, none⟩
        none [] ⟨[]⟩ 0 0).resultPercent = 0 ∧
    (Trade.mk "" "" directionLong ⟨0, 0, 3, none, none, none⟩
        none [] ⟨[]⟩ 0 0).unrealizedPercent 50 = 0 ∧
    (Trade.mk "" "" directionLong ⟨0, 0, 3, none, none, none⟩
        none [] ⟨[]⟩ 0 0).rMultiple = 0 ∧
    (Trade.mk "" "" directionLong ⟨100, 10, 1/2, some 95, none, none⟩
        (some ⟨115, 10, 1/2⟩) [] ⟨[]⟩ 0 0).rMultiple =
      (Trade.mk "" "" directionLong ⟨100, 10, 1/2, some 95, none, none⟩
        (some ⟨115, 10, 1/2⟩) [] ⟨[]⟩ 0 0).netResult /
      (Trade.mk "" "" directionLong ⟨100, 10, 1/2, some 95, none, none⟩
        (some ⟨115, 10, 1/2⟩) [] ⟨[]⟩ 0 0).totalRiskAmount := by
  have h0 := metrics_zero_guards
    (Trade.mk "" "" directionLong ⟨0, 0, 3, none, none, none⟩ none [] ⟨[]⟩ 0 0) 50
  have hz : (Trade.mk "" "" directionLong ⟨0, 0, 3, none, none, none⟩
      none [] ⟨[]⟩ 0 0).grossExposure = 0 := by
    simp [Trade.grossExposure]
  have hzr : (Trade.mk "" "" directionLong ⟨0, 0, 3, none, none, none⟩
      none [] ⟨[]⟩ 0 0).totalRiskAmount = 0 := by
    simp [Trade.totalRiskAmount]
  have h1 := metrics_zero_guards
    (Trade.mk "" "" directionLong ⟨100, 10, 1/2, some 95, none, none⟩
      (some ⟨115, 10, 1/2⟩) [] ⟨[]⟩ 0 0) 50
  have hnr : (Trade.mk "" "" directionLong ⟨100, 10, 1/2, some 95, none, none⟩
      (some ⟨115, 10, 1/2⟩) [] ⟨[]⟩ 0 0).totalRiskAmount ≠ 0 := by
    simp only [Trade.totalRiskAmount, Trade.riskPerShare]
    norm_num
  exact ⟨(h0.1 hz).1, (h0.1 hz).2, h0.2.1 hzr, h1.2.2 hnr⟩

/-- The range-loop of `FollowUpChangePercent` returns exactly the value
determined by the first follow-up (in stored order) whose `DaysAfter`
matches, i.e. by `List.find?`. -/
theorem fucpLoop_find (dir : String) (e : ExitDetail) (l : List FollowUp)
    (d : Int) :
    fucpLoop dir e l d =
      match l.find? (fun g => g.daysAfter == d) with
      | none => (0, false)
      | some f =>
        if e.price = 0 then (0, true)
        else if dir = directionShort then (((e.price - f.price) / e.price) * 100, true)
        else (((f.price - e.price) / e.price) * 100, true) := by
  induction l with
  | nil => simp [fucpLoop]
  | cons f rest ih =>
    by_cases h : f.daysAfter = d
    · rw [fucpLoop, if_pos h, List.find?_cons_of_pos _ (by simp [h])]
    · rw [fucpLoop, if_neg h, List.find?_cons_of_neg _ (by simp [h]), ih]

/-- C3. `FollowUpChangePercent` is `(0, false)` without an exit or without a
matching follow-up; otherwise it uses the first stored follow-up whose
`DaysAfter` matches, returning `(0, true)` on a zero exit price and the
direction-signed percentage change otherwise. -/
theorem followUpChangePercent_characterization (t : Trade) (d : Int) :
    (t.exit = none → t.followUpChangePercent d = (0, false)) ∧
    (∀ e, t.exit = some e →
      (t.followUps.find? (fun g => g.daysAfter == d) = none →
        t.followUpChangePercent d = (0, false)) ∧
      (∀ f, t.followUps.find? (fun g => g.daysAfter == d) = some f →
        (e.price = 0 → t.followUpChangePercent d = (0, true)) ∧
        (e.price ≠ 0 →
          (t.direction = directionLong →
            t.followUpChangePercent d =
              (((f.price - e.price) / e.price) * 100, true)) ∧
          (t.direction = directionShort →
            t.followUpChangePercent d =
              (((e.price - f.price) / e.price) * 100, true))))) := by
  refine ⟨fun h => by simp [Trade.followUpChangePercent, h], fun e he => ?_⟩
  refine ⟨fun hn => ?_, fun f hf => ⟨fun hp => ?_, fun hp => ⟨fun hd => ?_, fun hd => ?_⟩⟩⟩
  · simp only [Trade.followUpChangePercent, he, fucpLoop_find, hn]
  · simp only [Trade.followUpChangePercent, he, fucpLoop_find, hf]
    simp [hp]
  · simp only [Trade.followUpChangePercent, he, fucpLoop_find, hf, hd]
    rw [if_neg hp, if_neg long_ne_short]
  · simp only [Trade.followUpChangePercent, he, fucpLoop_find, hf, hd]
    rw [if_neg hp, if_pos trivial]

/-- Concrete instantiation of the C3 theorem (the spec's scenario: LONG,
entry 80, exit 100, follow-up at +7 days price 120 gives 20 percent). -/
theorem followUpChangePercent_characterization_witness :
    (Trade.mk "" "" directionLong ⟨80, 1, 0, none, none, none⟩
        (some ⟨100, 1, 0⟩) [⟨7, 120, 0⟩] ⟨[]⟩ 0 0).followUpChangePercent 7 =
      (20, true) ∧
    (Trade.mk "" "" directionLong ⟨80, 1, 0, none, none, none⟩
        (some ⟨100, 1, 0⟩) [⟨7, 120, 0⟩] ⟨[]⟩ 0 0).followUpChangePercent 9 =
      (0, false) := by
  have h := followUpChangePercent_characterization
    (Trade.mk "" "" directionLong ⟨80, 1, 0, none, none, none⟩
      (some ⟨100, 1, 0⟩) [⟨7, 120, 0⟩] ⟨[]⟩ 0 0) 7
  have h9 := followUpChangePercent_characterization
    (Trade.mk "" "" directionLong ⟨80, 1, 0, none, none, none⟩
      (some ⟨100, 1, 0⟩) [⟨7, 120, 0⟩] ⟨[]⟩ 0 0) 9
  constructor
  · have hv := (((h.2 ⟨100, 1, 0⟩ rfl).2 ⟨7, 120, 0⟩ rfl).2 (by norm_num)).1 rfl
    rw [hv]
    norm_num
  · exact (h9.2 ⟨100, 1, 0⟩ rfl).1 rfl

/-- C9. For a trade whose direction is neither `LONG` nor `SHORT`,
`GrossResult`, `UnrealizedResult`, `FollowUpChangePercent` and
`EffectiveRewardTarget` all fall back to the LONG formula, while the
stop-loss branch of `RiskPerShare` falls back to the SHORT formula
`stop - entry.price`. -/
theorem direction_fallback_inconsistency (t : Trade)
    (hL : t.direction ≠ directionLong) (hS : t.direction ≠ directionShort) :
    (∀ e, t.exit = some e →
      t.grossResult = (e.price - t.entry.price) * t.entry.quantity) ∧
    (t.exit = none → ∀ cp, t.unrealizedResult cp =
      (cp - t.entry.price) * t.entry.quantity - t.entry.fees) ∧
    (∀ e, t.exit = some e → ∀ f, ∀ d : Int,
      t.followUps.find? (fun g => g.daysAfter == d) = some f → e.price ≠ 0 →
      t.followUpChangePercent d = (((f.price - e.price) / e.price) * 100, true)) ∧
    (∀ tg, t.entry.target = some tg → t.totalRiskAmount ≠ 0 →
      t.effectiveRewardTarget =
        (tg - t.entry.price) * t.entry.quantity / t.totalRiskAmount) ∧
    (t.entry.riskPerShare = none → ∀ s, t.entry.stopLoss = some s →
      t.riskPerShare = s - t.entry.price) := by
  refine ⟨fun e he => ?_, fun he cp => ?_, fun e he f d hf hp => ?_,
    fun tg htg hr => ?_, fun ho s hs => ?_⟩
  · simp only [Trade.grossResult, he]
    rw [if_neg hS]
  · simp only [Trade.unrealizedResult, Trade.hasExited, he]
    rw [if_neg (by simp), if_neg hS]
  · simp only [Trade.followUpChangePercent, he, fucpLoop_find, hf]
    rw [if_neg hp, if_neg hS]
  · simp only [Trade.effectiveRewardTarget, htg]
    rw [if_neg hS, if_neg hr]
  · simp only [Trade.riskPerShare, ho, hs]
    rw [if_neg hL]

/-- Concrete instantiation of the C9 theorem at the empty direction: the
gross result takes the LONG branch while the stop-derived risk per share
takes the SHORT branch. -/
theorem direction_fallback_inconsistency_witness :
    (Trade.mk "" "" "" ⟨100, 10, 1, some 90, some 130, none⟩
        (some ⟨120, 10, 2⟩) [] ⟨[]⟩ 0 0).grossResult = 200 ∧
    (Trade.mk "" "" "" ⟨100, 10, 1, some 90, some 130, none⟩
        (some ⟨120, 10, 2⟩) [] ⟨[]⟩ 0 0).riskPerShare = -10 := by
  have h := direction_fallback_inconsistency
    (Trade.mk "" "" "" ⟨100, 10, 1, some 90, some 130, none⟩
      (some ⟨120, 10, 2⟩) [] ⟨[]⟩ 0 0) (by decide) (by decide)
  constructor
  · rw [h.1 ⟨120, 10, 2⟩ rfl]
    norm_num
  · rw [h.2.2.2.2 rfl 90 rfl]
    norm_num

/-- C10 counterexample: a LONG trade with the stop on the profitable side
(stop 110 above entry 100) but zero quantity has `TotalRiskAmount = 0` (not
strictly negative) and `RMultiple = 0`, contradicting the claim as stated. -/
theorem zero_risk_guard_quantity_zero_cex :
    (Trade.mk "" "" directionLong ⟨100, 0, 0, some 110, none, none⟩
        none [] ⟨[]⟩ 0 0).direction = directionLong ∧
    (Trade.mk "" "" directionLong ⟨100, 0, 0, some 110, none, none⟩
        none [] ⟨[]⟩ 0 0).entry.stopLoss = some 110 ∧
    (Trade.mk "" "" directionLong ⟨100, 0, 0, some 110, none, none⟩
        none [] ⟨[]⟩ 0 0).entry.price < 110 ∧
    ¬ (Trade.mk "" "" directionLong ⟨100, 0, 0, some 110, none, none⟩
        none [] ⟨[]⟩ 0 0).totalRiskAmount < 0 ∧
    (Trade.mk "" "" directionLong ⟨100, 0, 0, some 110, none, none⟩
        none [] ⟨[]⟩ 0 0).rMultiple = 0 := by
  have htra : (Trade.mk "" "" directionLong ⟨100, 0, 0, some 110, none, none⟩
      none [] ⟨[]⟩ 0 0).totalRiskAmount = 0 := by
    simp [Trade.totalRiskAmount, Trade.riskPerShare]
  refine ⟨rfl, rfl, by norm_num, ?_, ?_⟩
  · rw [htra]
    norm_num
  · simp [Trade.rMultiple, htra]

/-- C10 amended. For a trade with no explicit risk override, strictly
positive quantity, and a stop-loss on the profitable side of the entry,
`TotalRiskAmount` is strictly negative and `RMultiple` (and, when a target is
set, `EffectiveRewardTarget`) return the quotient by that negative amount
rather than 0. -/
theorem negative_risk_flips_sign (t : Trade)
    (hover : t.entry.riskPerShare = none) (hq : 0 < t.entry.quantity)
    (s : ℚ) (hs : t.entry.stopLoss = some s)
    (hside : (t.direction = directionLong ∧ t.entry.price < s) ∨
             (t.direction = directionShort ∧ s < t.entry.price)) :
    t.totalRiskAmount < 0 ∧
    t.rMultiple = t.netResult / t.totalRiskAmount ∧
    (∀ tg, t.entry.target = some tg →
      t.effectiveRewardTarget =
        (if t.direction = directionShort then (t.entry.price - tg) * t.entry.quantity
         else (tg - t.entry.price) * t.entry.quantity) / t.totalRiskAmount) := by
  have hrps : t.riskPerShare < 0 := by
    rcases hside with ⟨hd, hlt⟩ | ⟨hd, hlt⟩
    · simp only [Trade.riskPerShare, hover, hs, hd]
      rw [if_pos trivial]
      linarith
    · simp only [Trade.riskPerShare, hover, hs, hd]
      rw [if_neg (Ne.symm long_ne_short)]
      linarith
  have htra : t.totalRiskAmount < 0 := by
    simpa [Trade.totalRiskAmount] using mul_neg_of_neg_of_pos hrps hq
  refine ⟨htra, ?_, fun tg htg => ?_⟩
  · simp [Trade.rMultiple, ne_of_lt htra]
  · simp only [Trade.effectiveRewardTarget, htg]
    rw [if_neg (ne_of_lt htra)]

/-- Concrete instantiation of the C10 amended theorem: LONG, entry 100,
quantity 10, stop 110 (above entry) gives total risk -100 and an R multiple
of `netResult / -100`. -/
theorem negative_risk_flips_sign_witness :
    (Trade.mk "" "" directionLong ⟨100, 10, 1, some 110, none, none⟩
        none [] ⟨[]⟩ 0 0).totalRiskAmount = -100 ∧
    (Trade.mk "" "" directionLong ⟨100, 10, 1, some 110, none, none⟩
        none [] ⟨[]⟩ 0 0).totalRiskAmount < 0 ∧
    (Trade.mk "" "" directionLong ⟨100, 10, 1, some 110, none, none⟩
        none [] ⟨[]⟩ 0 0).rMultiple = 1 / 100 := by
  have h := negative_risk_flips_sign
    (Trade.mk "" "" directionLong ⟨100, 10, 1, some 110, none, none⟩
      none [] ⟨[]⟩ 0 0) rfl (by norm_num) 110 rfl (Or.inl ⟨rfl, by norm_num⟩)
  have htra : (Trade.mk "" "" directionLong ⟨100, 10, 1, some 110, none, none⟩
      none [] ⟨[]⟩ 0 0).totalRiskAmount = -100 := by
    simp only [Trade.totalRiskAmount, Trade.riskPerShare]
    norm_num
  have hnet : (Trade.mk "" "" directionLong ⟨100, 10, 1, some 110, none, none⟩
      none [] ⟨[]⟩ 0 0).netResult = -1 := by
    simp [Trade.netResult]
  refine ⟨htra, h.1, ?_⟩
  rw [h.2.1, htra, hnet]
  norm_num

/-- Association-list lookup, modelling reads of the Go map
`map[string]*trade.Trade` (keys are unique in every reachable state). -/
def assocLookup {α : Type} : List (String × α) → String → Option α
  | [], _ => none
  | (k, v) :: rest, key => if k = key then some v else assocLookup rest key

/-- Association-list insertion with replacement, modelling Go map
assignment `m[k] = v`. -/
def assocInsert {α : Type} : List (String × α) → String → α → List (String × α)
  | [], key, v => [(key, v)]
  | (k, w) :: rest, key, v =>
    if k = key then (key, v) :: rest else (k, w) :: assocInsert rest key v

/-- Association-list removal, modelling Go's `delete(m, k)`. -/
def assocRemove {α : Type} : List (String × α) → String → List (String × α)
  | [], _ => []
  | (k, w) :: rest, key =>
    if k = key then rest else (k, w) :: assocRemove rest key

/-- The backing store of `InMemoryTradeRepository` (value semantics; the
pointer-aliasing behaviour of reads is modelled separately below). -/
abbrev RepoMap := List (String × Trade)

/-- `InMemoryTradeRepository.Create`: generate an identifier when empty,
default a zero `CreatedAt` to now, stamp `UpdatedAt`, and store a copy.  The
two `time.Now()` reads (service and repository) and the generated identifier
are explicit parameters.  Returns the stored state and the trade as the Go
code leaves it in the caller's pointer. -/
def repoCreate (now : Nat) (genId : String) (m : RepoMap) (tr : Trade) :
    RepoMap × Trade :=
  let tr1 := if tr.id = "" then { tr with id := genId } else tr
  let tr2 := if tr1.createdAt = 0 then { tr1 with createdAt := now } else tr1
  let tr3 := { tr2 with updatedAt := now }
  (assocInsert m tr3.id tr3, tr3)

/-- `InMemoryTradeRepository.Update`: refuse an empty or unknown identifier
(`ErrNotFound`, modelled as `false`), else overwrite the entry with the
submitted trade, restamping only `UpdatedAt`. -/
def repoUpdate (now : Nat) (m : RepoMap) (tr : Trade) : RepoMap × Bool :=
  if tr.id = "" then (m, false)
  else
    match assocLookup m tr.id with
    | none => (m, false)
    | some _ => (assocInsert m tr.id { tr with updatedAt := now }, true)

/-- `InMemoryTradeRepository.Delete`: `ErrNotFound` on an unknown
identifier, else remove the entry. -/
def repoDelete (m : RepoMap) (id : String) : RepoMap × Bool :=
  match assocLookup m id with
  | none => (m, false)
  | some _ => (assocRemove m id, true)

/-- `InMemoryTradeRepository.GetByID`: `ErrNotFound` (`none`) on an unknown
identifier; reads never change the store. -/
def repoGetByID (m : RepoMap) (id : String) : Option Trade :=
  assocLookup m id

/-- Latin-1 white space as recognised by Go's `unicode.IsSpace` (tab,
newline, vertical tab, form feed, carriage return, space, NEL, NBSP); the
repository's tags only exercise this range. -/
def isSpaceChar (c : Char) : Bool :=
  c.toNat == 9 || c.toNat == 10 || c.toNat == 11 || c.toNat == 12 ||
  c.toNat == 13 || c.toNat == 32 || c.toNat == 133 || c.toNat == 160

/-- `strings.TrimSpace` over `List Char`: drop white space from both ends. -/
def trimSpace (l : List Char) : List Char :=
  ((l.dropWhile isSpaceChar).reverse.dropWhile isSpaceChar).reverse

/-- `strings.ToLower` over `List Char` (the basic-latin range, via the core
`Char.toLower`, which matches Go's lowering on ASCII). -/
def asciiToLower (l : List Char) : List Char :=
  l.map Char.toLower

/-- The loop body of the service's `normalize`: trim each tag, drop empty
results, lower-case the survivors, preserving order.  No deduplication is
performed. -/
def normalizeTags : List (List Char) → List (List Char)
  | [] => []
  | tag :: rest =>
    let t := trimSpace tag
    if t = [] then normalizeTags rest
    else asciiToLower t :: normalizeTags rest

/-- `normalize` from the trade service (named `normalizeTrade` here to avoid the Mathlib name): rewrite the review's tags.  (Go's
`!= nil` guard is invisible under list semantics: an absent slice and an
empty slice both normalize to the empty list.) -/
def normalizeTrade (tr : Trade) : Trade :=
  { tr with review := ⟨normalizeTags tr.review.tags⟩ }

/-- `Service.Create`: stamp `CreatedAt = UpdatedAt = now`, normalize tags,
delegate to the repository. -/
def serviceCreate (nowSvc nowRepo : Nat) (genId : String) (m : RepoMap)
    (tr : Trade) : RepoMap × Trade :=
  repoCreate nowRepo genId m
    (normalizeTrade { tr with createdAt := nowSvc, updatedAt := nowSvc })

/-- `Service.Update`: stamp `UpdatedAt`, normalize tags, delegate. -/
def serviceUpdate (nowSvc nowRepo : Nat) (m : RepoMap) (tr : Trade) :
    RepoMap × Bool :=
  repoUpdate nowRepo m (normalizeTrade { tr with updatedAt := nowSvc })

/-- `Service.AddFollowUp`: read the trade, stamp and append the follow-up,
refresh `UpdatedAt`, normalize, re-persist via `Update`. -/
def serviceAddFollowUp (nowSvc nowRepo : Nat) (m : RepoMap) (tradeID : String)
    (fu : FollowUp) : RepoMap × Bool :=
  match repoGetByID m tradeID with
  | none => (m, false)
  | some tr =>
    let fu1 := { fu with loggedAt := nowSvc }
    let tr1 := { tr with followUps := tr.followUps ++ [fu1], updatedAt := nowSvc }
    repoUpdate nowRepo m (normalizeTrade tr1)

/-- A persisted tag is non-empty, carries no leading or trailing white
space, and is a fixpoint of lowering (no mixed case). -/
def cleanTag (u : List Char) : Prop :=
  u ≠ [] ∧
  (∀ c, u.head? = some c → isSpaceChar c = false) ∧
  (∀ c, u.getLast? = some c → isSpaceChar c = false) ∧
  (∀ c ∈ u, c.toLower = c)

theorem dropWhile_head_not (p : Char → Bool) (l : List Char) :
    ∀ c, (l.dropWhile p).head? = some c → p c = false := by
  induction l with
  | nil => simp
  | cons a t ih =>
    intro c h
    rw [List.dropWhile_cons] at h
    by_cases ha : p a
    · rw [if_pos ha] at h
      exact ih c h
    · rw [if_neg ha] at h
      simp only [List.head?_cons, Option.some.injEq] at h
      subst h
      exact Bool.eq_false_iff.mpr ha

theorem append_dropWhile (p : Char → Bool) (l : List Char) :
    ∃ s, s ++ l.dropWhile p = l := by
  induction l with
  | nil => exact ⟨[], rfl⟩
  | cons a t ih =>
    by_cases h : p a
    · obtain ⟨s, hs⟩ := ih
      exact ⟨a :: s, by simp [List.dropWhile_cons, h, hs]⟩
    · exact ⟨[], by simp [List.dropWhile_cons, h]⟩

theorem trimSpace_head (l : List Char) :
    ∀ c, (trimSpace l).head? = some c → isSpaceChar c = false := by
  intro c h
  rw [trimSpace] at h
  obtain ⟨s, hs⟩ := append_dropWhile isSpaceChar (l.dropWhile isSpaceChar).reverse
  have hdec : l.dropWhile isSpaceChar =
      ((l.dropWhile isSpaceChar).reverse.dropWhile isSpaceChar).reverse ++ s.reverse := by
    have := congrArg List.reverse hs
    rw [List.reverse_append] at this
    simpa using this.symm
  apply dropWhile_head_not isSpaceChar l c
  rw [hdec]
  cases hd : ((l.dropWhile isSpaceChar).reverse.dropWhile isSpaceChar).reverse with
  | nil => rw [hd] at h; simp at h
  | cons a t =>
    rw [hd] at h
    simp only [List.head?_cons, Option.some.injEq] at h
    subst h
    rfl

theorem trimSpace_last (l : List Char) :
    ∀ c, (trimSpace l).getLast? = some c → isSpaceChar c = false := by
  intro c h
  rw [trimSpace, List.getLast?_reverse] at h
  exact dropWhile_head_not isSpaceChar _ c h

theorem toLower_toNat_of_upper (c : Char) (h : 65 ≤ c.toNat ∧ c.toNat ≤ 90) :
    c.toLower.toNat = c.toNat + 32 := by
  rw [Char.toLower, if_pos h]
  have hv : (c.toNat + 32).isValidChar := Or.inl (by omega)
  rw [Char.ofNat, dif_pos hv]
  simp [Char.ofNatAux, Char.toNat, UInt32.toNat]

theorem toLower_of_not_upper (c : Char) (h : ¬(65 ≤ c.toNat ∧ c.toNat ≤ 90)) :
    c.toLower = c := by
  rw [Char.toLower]
  exact if_neg h

theorem isSpaceChar_toLower (c : Char) :
    isSpaceChar c.toLower = isSpaceChar c := by
  by_cases h : 65 ≤ c.toNat ∧ c.toNat ≤ 90
  · have hv := toLower_toNat_of_upper c h
    have hA : isSpaceChar c.toLower = false := by
      simp only [isSpaceChar, hv, Bool.or_eq_false_iff, beq_eq_false_iff_ne, ne_eq]
      omega
    have hB : isSpaceChar c = false := by
      simp only [isSpaceChar, Bool.or_eq_false_iff, beq_eq_false_iff_ne, ne_eq]
      omega
    rw [hA, hB]
  · rw [toLower_of_not_upper c h]

theorem toLower_idem (c : Char) : c.toLower.toLower = c.toLower := by
  by_cases h : 65 ≤ c.toNat ∧ c.toNat ≤ 90
  · apply toLower_of_not_upper
    rw [toLower_toNat_of_upper c h]
    omega
  · rw [toLower_of_not_upper c h, toLower_of_not_upper c h]

theorem normalizeTags_clean (tags : List (List Char)) :
    ∀ u ∈ normalizeTags tags, cleanTag u := by
  induction tags with
  | nil => simp [normalizeTags]
  | cons tag rest ih =>
    intro u hu
    simp only [normalizeTags] at hu
    by_cases ht : trimSpace tag = []
    · rw [if_pos ht] at hu
      exact ih u hu
    · rw [if_neg ht] at hu
      rcases List.mem_cons.mp hu with heq | hmem
      · subst heq
        refine ⟨by simpa [asciiToLower] using ht, fun c h => ?_, fun c h => ?_,
          fun c hc => ?_⟩
        · rw [asciiToLower, List.head?_map] at h
          cases hw : (trimSpace tag).head? with
          | none => rw [hw] at h; simp at h
          | some c0 =>
            rw [hw] at h
            simp only [Option.map_some', Option.some.injEq] at h
            subst h
            rw [isSpaceChar_toLower]
            exact trimSpace_head tag c0 hw
        · rw [asciiToLower, List.getLast?_map] at h
          cases hw : (trimSpace tag).getLast? with
          | none => rw [hw] at h; simp at h
          | some c0 =>
            rw [hw] at h
            simp only [Option.map_some', Option.some.injEq] at h
            subst h
            rw [isSpaceChar_toLower]
            exact trimSpace_last tag c0 hw
        · rw [asciiToLower] at hc
          obtain ⟨c0, _, hc0⟩ := List.mem_map.mp hc
          subst hc0
          exact toLower_idem c0
      · exact ih u hmem

theorem normalizeTags_order (tags : List (List Char)) :
    normalizeTags tags =
      ((tags.map trimSpace).filter (fun w => !w.isEmpty)).map asciiToLower := by
  induction tags with
  | nil => rfl
  | cons tag rest ih =>
    simp only [normalizeTags, List.map_cons, List.filter_cons]
    by_cases ht : trimSpace tag = []
    · simp [ht, ih]
    · simp [ht, ih, List.isEmpty_iff]

theorem assocLookup_insert_self {α : Type} (m : List (String × α))
    (key : String) (v : α) :
    assocLookup (assocInsert m key v) key = some v := by
  induction m with
  | nil => simp [assocInsert, assocLookup]
  | cons kv rest ih =>
    obtain ⟨k, w⟩ := kv
    by_cases hk : k = key
    · simp [assocInsert, hk, assocLookup]
    · simp [assocInsert, hk, assocLookup, ih]

theorem repoUpdate_true (now : Nat) (m : RepoMap) (tr : Trade) (m2 : RepoMap)
    (h : repoUpdate now m tr = (m2, true)) :
    m2 = assocInsert m tr.id { tr with updatedAt := now } := by
  unfold repoUpdate at h
  by_cases hid : tr.id = ""
  · rw [if_pos hid] at h
    simp at h
  · rw [if_neg hid] at h
    cases hl : assocLookup m tr.id with
    | none => rw [hl] at h; simp at h
    | some _ =>
      rw [hl] at h
      injection h with h1 h2
      exact h1.symm

theorem repoCreate_review (now : Nat) (gid : String) (m : RepoMap)
    (tr : Trade) : (repoCreate now gid m tr).2.review = tr.review := by
  simp only [repoCreate]
  by_cases h1 : tr.id = "" <;> simp [h1] <;> split <;> rfl

theorem repoCreate_stores_self (now : Nat) (gid : String) (m : RepoMap)
    (tr : Trade) :
    assocLookup (repoCreate now gid m tr).1 (repoCreate now gid m tr).2.id =
      some (repoCreate now gid m tr).2 :=
  assocLookup_insert_self m _ _

/-- C5 counterexample: the service's `normalize` does not deduplicate — a
trade created with the duplicate tag list `["dup", "dup"]` is persisted with
both copies, so the stored tag list is not duplicate-free. -/
theorem normalize_keeps_duplicates_cex :
    ((assocLookup
        (serviceCreate 1 1 "id1" []
          (Trade.mk "" "" directionLong ⟨1, 1, 0, none, none, none⟩ none []
            ⟨[['d', 'u', 'p'], ['d', 'u', 'p']]⟩ 0 0)).1 "id1").map
      (fun st => st.review.tags)) =
      some [['d', 'u', 'p'], ['d', 'u', 'p']] ∧
    ¬ ([['d', 'u', 'p'], ['d', 'u', 'p']] : List (List Char)).Nodup := by
  constructor
  · rfl
  · decide

/-- C5 amended. After `Service.Create`, a successful `Service.Update`, or a
successful `Service.AddFollowUp`, the persisted trade's tags are non-empty,
trimmed and lower-cased, in insertion order of the surviving submitted tags
(for `AddFollowUp`, of the previously stored tags); duplicates are NOT
removed. -/
theorem persisted_tags_normalized (n1 n2 : Nat) (gid : String) (m : RepoMap)
    (tr : Trade) :
    ((∀ u ∈ (serviceCreate n1 n2 gid m tr).2.review.tags, cleanTag u) ∧
      (serviceCreate n1 n2 gid m tr).2.review.tags =
        ((tr.review.tags.map trimSpace).filter (fun w => !w.isEmpty)).map
          asciiToLower ∧
      assocLookup (serviceCreate n1 n2 gid m tr).1
          (serviceCreate n1 n2 gid m tr).2.id =
        some (serviceCreate n1 n2 gid m tr).2) ∧
    (∀ m2, serviceUpdate n1 n2 m tr = (m2, true) →
      ∃ st, assocLookup m2 tr.id = some st ∧
        st.review.tags =
          ((tr.review.tags.map trimSpace).filter (fun w => !w.isEmpty)).map
            asciiToLower ∧
        ∀ u ∈ st.review.tags, cleanTag u) ∧
    (∀ tid fu m2, serviceAddFollowUp n1 n2 m tid fu = (m2, true) →
      ∀ tr0, repoGetByID m tid = some tr0 →
        ∃ st, assocLookup m2 tr0.id = some st ∧
          st.review.tags =
            ((tr0.review.tags.map trimSpace).filter (fun w => !w.isEmpty)).map
              asciiToLower ∧
          ∀ u ∈ st.review.tags, cleanTag u) := by
  have hrev : (serviceCreate n1 n2 gid m tr).2.review.tags =
      normalizeTags tr.review.tags := by
    rw [serviceCreate, repoCreate_review]
    rfl
  refine ⟨⟨?_, ?_, repoCreate_stores_self _ _ _ _⟩, ?_, ?_⟩
  · rw [hrev]
    exact normalizeTags_clean tr.review.tags
  · rw [hrev, normalizeTags_order]
  · intro m2 hm2
    have hm2' := repoUpdate_true n2 m _ m2 hm2
    refine ⟨{ normalizeTrade { tr with updatedAt := n1 } with updatedAt := n2 },
      ?_, ?_, ?_⟩
    · rw [hm2']
      exact assocLookup_insert_self m _ _
    · exact normalizeTags_order tr.review.tags
    · intro u hu
      exact normalizeTags_clean tr.review.tags u hu
  · intro tid fu m2 hm2 tr0 hG
    rw [serviceAddFollowUp, hG] at hm2
    have hm2' := repoUpdate_true n2 m _ m2 hm2
    refine ⟨{ normalizeTrade { tr0 with
        followUps := tr0.followUps ++ [{ fu with loggedAt := n1 }],
        updatedAt := n1 } with updatedAt := n2 }, ?_, ?_, ?_⟩
    · rw [hm2']
      exact assocLookup_insert_self m _ _
    · exact normalizeTags_order tr0.review.tags
    · intro u hu
      exact normalizeTags_clean tr0.review.tags u hu

/-- Concrete instantiation of the C5 amended theorem, mirroring the Go test
`TestNormalizeTags`: the tags `[" Breakout ", "Momentum", ""]` are persisted
as `["breakout", "momentum"]`, each satisfying the cleanliness predicate. -/
theorem persisted_tags_normalized_witness :
    (serviceCreate 3 4 "idw" []
        (Trade.mk "" "" directionLong ⟨1, 1, 0, none, none, none⟩ none []
          ⟨[[' ', 'B', 'r', 'e', 'a', 'k', 'o', 'u', 't', ' '],
            ['M', 'o', 'm', 'e', 'n', 't', 'u', 'm'], []]⟩ 0 0)).2.review.tags =
      [['b', 'r', 'e', 'a', 'k', 'o', 'u', 't'],
        ['m', 'o', 'm', 'e', 'n', 't', 'u', 'm']] ∧
    (∀ u ∈ (serviceCreate 3 4 "idw" []
        (Trade.mk "" "" directionLong ⟨1, 1, 0, none, none, none⟩ none []
          ⟨[[' ', 'B', 'r', 'e', 'a', 'k', 'o', 'u', 't', ' '],
            ['M', 'o', 'm', 'e', 'n', 't', 'u', 'm'], []]⟩ 0 0)).2.review.tags,
      cleanTag u) := by
  have h := persisted_tags_normalized 3 4 "idw" []
    (Trade.mk "" "" directionLong ⟨1, 1, 0, none, none, none⟩ none []
      ⟨[[' ', 'B', 'r', 'e', 'a', 'k', 'o', 'u', 't', ' '],
        ['M', 'o', 'm', 'e', 'n', 't', 'u', 'm'], []]⟩ 0 0)
  refine ⟨?_, h.1.1⟩
  rw [h.1.2.1]
  rfl

/-- Sample stored trade for the C6 claim: created and last updated at
instant 5. -/
def c6trA : Trade :=
  Trade.mk "t" "" directionLong ⟨1, 1, 0, none, none, none⟩ none [] ⟨[]⟩ 5 5

/-- The same trade as [c6trA] but submitted with a different `CreatedAt`. -/
def c6trB : Trade :=
  Trade.mk "t" "" directionLong ⟨1, 1, 0, none, none, none⟩ none [] ⟨[]⟩ 99 5

/-- C6 counterexample: the repository's `Update` stores the submitted
trade's `CreatedAt` verbatim — updating a trade stored with `CreatedAt = 5`
by a submission carrying `CreatedAt = 99` changes the stored `CreatedAt`
to 99. -/
theorem update_createdAt_overwrite_cex :
    ((assocLookup [("t", c6trA)] "t").map (fun st => st.createdAt)) = some 5 ∧
    (serviceUpdate 6 7 [("t", c6trA)] c6trB).2 = true ∧
    ((assocLookup (serviceUpdate 6 7 [("t", c6trA)] c6trB).1 "t").map
      (fun st => st.createdAt)) = some 99 :=
  ⟨rfl, rfl, rfl⟩

/-- C6 amended. A successful `Service.Update` leaves the submitted trade's
`CreatedAt` untouched, so the stored `CreatedAt` equals the submitted one
(and is preserved exactly when the caller re-submits the stored trade, as
the read-modify-write handler does); the stored `UpdatedAt` is set to the
repository's update instant, which is strictly later than the previously
stored `UpdatedAt` whenever the clock advanced. -/
theorem update_timestamps_amended (m : RepoMap) (tr old : Trade)
    (n1 n2 : Nat) (hold : assocLookup m tr.id = some old) (hid : tr.id ≠ "") :
    ∃ m2, serviceUpdate n1 n2 m tr = (m2, true) ∧
      ∃ st, assocLookup m2 tr.id = some st ∧
        st.createdAt = tr.createdAt ∧
        st.updatedAt = n2 ∧
        (tr.createdAt = old.createdAt → st.createdAt = old.createdAt) ∧
        (old.updatedAt < n2 → old.updatedAt < st.updatedAt) := by
  have hrun : serviceUpdate n1 n2 m tr =
      (assocInsert m tr.id
        { normalizeTrade { tr with updatedAt := n1 } with updatedAt := n2 },
        true) := by
    dsimp only [serviceUpdate, repoUpdate, normalizeTrade]
    rw [if_neg hid, hold]
  exact ⟨_, hrun,
    { normalizeTrade { tr with updatedAt := n1 } with updatedAt := n2 },
    assocLookup_insert_self m _ _, rfl, rfl, fun h => h, fun h => h⟩

/-- Concrete instantiation of the C6 amended theorem: re-submitting the
stored trade (created at 5) with repository update time 7 keeps
`CreatedAt = 5` and stores `UpdatedAt = 7 > 5`. -/
theorem update_timestamps_amended_witness :
    (serviceUpdate 6 7 [("t", c6trA)] c6trA).2 = true ∧
    ((assocLookup (serviceUpdate 6 7 [("t", c6trA)] c6trA).1 "t").map
      (fun st => (st.createdAt, st.updatedAt))) = some (5, 7) ∧
    (5 : Nat) < 7 := by
  obtain ⟨m2, hrun, st, hst, hc, hu, -, -⟩ :=
    update_timestamps_amended [("t", c6trA)] c6trA c6trA 6 7 rfl (by decide)
  refine ⟨by rw [hrun], ?_, by norm_num⟩
  rw [hrun]
  have hst2 : assocLookup m2 "t" = some st := hst
  simp only [hst2, Option.map_some', hc, hu]
  rfl

/-- Sample stored trade for the C8 claim, keyed by its own identifier. -/
def c8tr : Trade :=
  Trade.mk "a" "" directionLong ⟨1, 1, 0, none, none, none⟩ none [] ⟨[]⟩ 1 1

/-- C8. In every repository state (all reachable states map no trade to the
empty key): `GetByID`, `Delete` and `Update` answer `ErrNotFound` and leave
the map unchanged on an unknown identifier, `Update` also on an empty
identifier; on a stored identifier all three succeed. -/
theorem repo_notFound_characterization (m : RepoMap)
    (hinv : assocLookup m "" = none) :
    (∀ id, assocLookup m id = none →
      repoGetByID m id = none ∧
      repoDelete m id = (m, false) ∧
      (∀ (tr : Trade) (now : Nat), tr.id = id → repoUpdate now m tr = (m, false))) ∧
    (∀ (tr : Trade) (now : Nat), tr.id = "" → repoUpdate now m tr = (m, false)) ∧
    (∀ id tr0, assocLookup m id = some tr0 →
      repoGetByID m id = some tr0 ∧
      (repoDelete m id).2 = true ∧
      (∀ (tr : Trade) (now : Nat), tr.id = id → (repoUpdate now m tr).2 = true)) := by
  refine ⟨fun id hid => ⟨hid, ?_, fun tr now htr => ?_⟩,
    fun tr now htr => ?_,
    fun id tr0 hid => ⟨hid, ?_, fun tr now htr => ?_⟩⟩
  · simp only [repoDelete, hid]
  · simp only [repoUpdate, htr, hid]
    by_cases hz : id = ""
    · rw [if_pos hz]
    · rw [if_neg hz]
  · simp only [repoUpdate, htr]
    rw [if_pos trivial]
  · simp only [repoDelete, hid]
  · have hz : id ≠ "" := by
      intro h
      rw [h, hinv] at hid
      exact Option.noConfusion hid
    simp only [repoUpdate, htr, hid]
    rw [if_neg hz]

/-- Concrete instantiation of the C8 theorem on a one-trade store: the
unknown key `"zz"` and the empty key fail without touching the store, the
stored key `"a"` succeeds for all three operations. -/
theorem repo_notFound_characterization_witness :
    repoGetByID [("a", c8tr)] "zz" = none ∧
    repoDelete [("a", c8tr)] "zz" = ([("a", c8tr)], false) ∧
    repoUpdate 3 [("a", c8tr)] { c8tr with id := "zz" } = ([("a", c8tr)], false) ∧
    repoUpdate 3 [("a", c8tr)] { c8tr with id := "" } = ([("a", c8tr)], false) ∧
    repoGetByID [("a", c8tr)] "a" = some c8tr ∧
    (repoDelete [("a", c8tr)] "a").2 = true ∧
    (repoUpdate 3 [("a", c8tr)] c8tr).2 = true := by
  obtain ⟨habs, hemp, hpres⟩ := repo_notFound_characterization [("a", c8tr)] rfl
  have h1 := habs "zz" rfl
  have h2 := hpres "a" c8tr rfl
  exact ⟨h1.1, h1.2.1, h1.2.2 _ 3 rfl, hemp _ 3 rfl, h2.1, h2.2.1,
    h2.2.2 c8tr 3 rfl⟩

/-- The pointer-level representation of a stored `*trade.Trade`: the nested
`Exit *ExitDetail` pointer and the `FollowUps` slice header are addresses
into a shared heap.  These are exactly the words copied bit-for-bit by the
shallow struct copy `cp := *tr` performed by `GetByID` and `List`. -/
structure TradeRepr where
  id : String
  instrument : String
  exitPtr : Option Nat
  fuPtr : Nat
  deriving DecidableEq, Repr

/-- The heap of nested allocations reachable from stored trades. -/
structure RepoHeap where
  exits : List ExitDetail
  fuArrays : List (List FollowUp)
  deriving DecidableEq, Repr

/-- The in-memory repository at pointer level: the backing map plus the
heap its values point into. -/
structure PtrRepo where
  heap : RepoHeap
  trades : List (String × TradeRepr)
  deriving DecidableEq, Repr

/-- `InMemoryTradeRepository.GetByID` at pointer level: `cp := *tr` copies
the struct words, so the returned value carries the same `exitPtr` and
`fuPtr` as the stored entry. -/
def ptrGetByID (r : PtrRepo) (id : String) : Option TradeRepr :=
  assocLookup r.trades id

/-- Overwrite the price of the exit cell at `addr`. -/
def setExitPrice : List ExitDetail → Nat → ℚ → List ExitDetail
  | [], _, _ => []
  | c :: rest, 0, p => ⟨p, c.quantity, c.fees⟩ :: rest
  | c :: rest, n + 1, p => c :: setExitPrice rest n p

/-- A caller-side mutation `got.Exit.Price = p` through the trade returned
by `GetByID`: it writes the heap cell the trade's exit pointer names. -/
def writeExitPrice (r : PtrRepo) (t : TradeRepr) (p : ℚ) : PtrRepo :=
  match t.exitPtr with
  | none => r
  | some a => { r with heap := { r.heap with exits := setExitPrice r.heap.exits a p } }

/-- The exit price the repository's stored trade observes through its own
exit pointer. -/
def viewExitPrice (r : PtrRepo) (id : String) : Option ℚ :=
  (assocLookup r.trades id).bind fun t =>
    t.exitPtr.bind fun a => (r.heap.exits.get? a).map fun e => e.price

/-- C7 (code bug): `cp := *tr` in `GetByID` is a shallow copy — the
returned trade shares the `Exit` pointer with the stored entry, so a caller
mutation `got.Exit.Price = 999` changes the exit price the stored trade
observes from 100 to 999; the stored state is not independent of the
returned copy. -/
theorem getByID_shallow_copy_shares_exit :
    ptrGetByID
        (PtrRepo.mk ⟨[⟨100, 10, 2⟩], [[]]⟩ [("t1", ⟨"t1", "AAPL", some 0, 0⟩)])
        "t1" = some ⟨"t1", "AAPL", some 0, 0⟩ ∧
    viewExitPrice
        (PtrRepo.mk ⟨[⟨100, 10, 2⟩], [[]]⟩ [("t1", ⟨"t1", "AAPL", some 0, 0⟩)])
        "t1" = some 100 ∧
    viewExitPrice
        (writeExitPrice
          (PtrRepo.mk ⟨[⟨100, 10, 2⟩], [[]]⟩ [("t1", ⟨"t1", "AAPL", some 0, 0⟩)])
          ⟨"t1", "AAPL", some 0, 0⟩ 999)
        "t1" = some 999 ∧
    (100 : ℚ) ≠ 999 :=
  ⟨rfl, rfl, rfl, by norm_num⟩
